import Mathlib

/-!
Shallow embedding of `intel_streamer` (src/main.go) and verification of its
specification claims.  The program polls a news API, classifies headlines
via an external subprocess, and renders a bounded fading feed buffer.

I/O boundaries (HTTP responses, subprocess outcomes) are abstracted as
explicit inputs; the pure logic of each Go function is translated directly.
Operations that can panic in Go (slice indexing, division by zero) are
embedded as `Option`-returning operations, where `none` models a runtime
fault.
-/

namespace IntelStreamer

/-- `Story` struct from src/main.go: title and url parsed from the item JSON. -/
structure Story where
  title : String
  url : String
deriving DecidableEq, Repr, Inhabited

/-- `HighValueInsight` struct from src/main.go: classifier verdict for a story. -/
structure HighValueInsight where
  title : String
  url : String
  summary : String
  priority : String
deriving DecidableEq, Repr, Inhabited

/-- Constant `maxEntries = 20` from src/main.go. -/
def maxEntries : Nat := 20

/-- Constant `numStoriesFetch = 1` from src/main.go. -/
def numStoriesFetch : Nat := 1

/-- The `fadeLevels` color table from src/main.go. -/
def fadeLevels : List String :=
  ["[white]", "[lightgray]", "[gray]", "[darkgray]", "[black]"]

/-- `addEntry` from src/main.go: prepend the message, then truncate to the
first `maxEntries` entries when the length exceeds the capacity. -/
def addEntry (entries : List String) (message : String) : List String :=
  let entries1 := message :: entries
  if maxEntries < entries1.length then entries1.take maxEntries else entries1

/-- Inserting a whole sequence of messages, oldest first, starting from a
given buffer: the poll loop's repeated `entries = addEntry(entries, m)`. -/
def insertAll (msgs : List String) (entries : List String) : List String :=
  msgs.foldl addEntry entries

lemma addEntry_eq_take (entries : List String) (message : String)
    (h : entries.length ≤ maxEntries) :
    addEntry entries message = (message :: entries).take maxEntries := by
  unfold addEntry
  by_cases hc : maxEntries < (message :: entries).length
  · simp [hc]
  · simp only [hc, if_false]
    rw [List.take_of_length_le (Nat.le_of_not_lt hc)]

lemma addEntry_length_le (entries : List String) (message : String)
    (h : entries.length ≤ maxEntries) :
    (addEntry entries message).length ≤ maxEntries := by
  rw [addEntry_eq_take entries message h]
  simpa using Nat.min_le_left maxEntries _

lemma take_append_take (A B : List String) (n : Nat) :
    (A ++ B.take n).take n = (A ++ B).take n := by
  rw [List.take_append_eq_append_take, List.take_append_eq_append_take,
    List.take_take]
  congr 1
  congr 1
  omega

lemma insertAll_eq_take (msgs : List String) :
    ∀ entries : List String, entries.length ≤ maxEntries →
      insertAll msgs entries = (msgs.reverse ++ entries).take maxEntries := by
  induction msgs with
  | nil =>
      intro entries h
      simp [insertAll, List.take_of_length_le h]
  | cons m rest ih =>
      intro entries h
      have h1 : (addEntry entries m).length ≤ maxEntries :=
        addEntry_length_le entries m h
      calc insertAll (m :: rest) entries
          = insertAll rest (addEntry entries m) := rfl
        _ = (rest.reverse ++ addEntry entries m).take maxEntries := ih _ h1
        _ = (rest.reverse ++ (m :: entries).take maxEntries).take maxEntries := by
              rw [addEntry_eq_take entries m h]
        _ = (rest.reverse ++ (m :: entries)).take maxEntries := by
              rw [take_append_take]
        _ = ((m :: rest).reverse ++ entries).take maxEntries := by
              simp

/-- The fade-bucket formula from `formatEntriesWithFade` in src/main.go:
`i * (len(fadeLevels) - 1) / len(entries)` for an entry at position `i`
of a buffer of length `n` (Go integer division = Nat division here). -/
def fadeBucket (i n : Nat) : Nat := i * (fadeLevels.length - 1) / n

/-- The loop body of `formatEntriesWithFade` from src/main.go, as a recursion
over the remaining entries with the running index `i`.  `n` is the fixed
`len(entries)` of the whole buffer.  A Go division by zero or an
out-of-range index into `fadeLevels` would panic; both are modelled as
`none`. -/
def fadeWorker (n : Nat) : Nat → List String → Option (List String)
  | _, [] => some []
  | i, e :: rest =>
    if n = 0 then none
    else
      match fadeLevels.get? (fadeBucket i n) with
      | none => none
      | some color =>
        match fadeWorker n (i + 1) rest with
        | none => none
        | some tail => some ((color ++ e ++ "[-]") :: tail)

/-- `formatEntriesWithFade` from src/main.go: color each entry by its fade
bucket and join the formatted entries with blank lines (`"\n\n"`).
`none` models a runtime panic (division by zero / index out of range). -/
def formatEntriesWithFade (entries : List String) : Option String :=
  (fadeWorker entries.length 0 entries).map (String.intercalate "\n\n")

lemma fadeBucket_le_three (i n : Nat) (hi : i < n) : fadeBucket i n ≤ 3 := by
  have hn : 0 < n := Nat.lt_of_le_of_lt (Nat.zero_le i) hi
  unfold fadeBucket
  have hmul : i * (fadeLevels.length - 1) < 4 * n := by
    simp only [fadeLevels, List.length_cons, List.length_nil]
    omega
  have := (Nat.div_lt_iff_lt_mul hn).mpr hmul
  omega

lemma fadeLevels_get?_of_le (k : Nat) (hk : k ≤ 3) :
    fadeLevels.get? k = some (fadeLevels.getD k "") := by
  interval_cases k <;> rfl

lemma fadeWorker_eq (n : Nat) :
    ∀ (l : List String) (i : Nat), i + l.length ≤ n →
      fadeWorker n i l =
        some ((l.enumFrom i).map
          (fun p => fadeLevels.getD (fadeBucket p.1 n) "" ++ p.2 ++ "[-]")) := by
  intro l
  induction l with
  | nil => intro i h; simp [fadeWorker]
  | cons e rest ih =>
    intro i h
    have hi : i < n := by
      simp only [List.length_cons] at h
      omega
    have hn : n ≠ 0 := by omega
    have hk : fadeBucket i n ≤ 3 := fadeBucket_le_three i n hi
    have hrec := ih (i + 1) (by simp only [List.length_cons] at h; omega)
    simp only [fadeWorker, hn, if_false, fadeLevels_get?_of_le _ hk, hrec,
      List.enumFrom, List.map_cons]

/-- Worker for `splitLines`, recursing over the character list from the
left: a newline closes the current (empty) field in front of the split of
the rest; any other character is prepended to the first field of the split
of the rest.  Never returns `[]`. -/
def splitLinesAux : List Char → List String
  | [] => [""]
  | c :: rest =>
    match splitLinesAux rest with
    | [] => [""]
    | line :: tail =>
      if c = '\n' then "" :: line :: tail
      else String.mk (c :: line.data) :: tail

/-- Go `strings.Split(s, "\n")` as used by `analyzeWithOllama` in
src/main.go: split on every newline character, keeping empty fields; the
empty string yields a single empty field. -/
def splitLines (s : String) : List String :=
  splitLinesAux s.data

/-- Outcome of running the external classifier command (`cmd.Run()` in
src/main.go): captured stdout on success, or a spawn/non-zero-exit failure. -/
inductive CmdResult where
  | ok (output : String)
  | fail
deriving DecidableEq, Repr

/-- `analyzeWithOllama` from src/main.go, with the subprocess outcome as an
explicit input.  On command failure it returns an error.  On success it
splits stdout on `"\n"`: fewer than two lines yields a synthetic insight
with priority `"Low"` and the fixed invalid-format summary; otherwise the
first line is the priority verbatim and the remaining lines joined by
single spaces form the summary. -/
def analyzeWithOllama (story : Story) (r : CmdResult) :
    Except String HighValueInsight :=
  match r with
  | .fail => .error "failed to execute Ollama command"
  | .ok output =>
    let lines := splitLines output
    if lines.length < 2 then
      .ok { title := story.title, url := story.url,
            summary := "[red]Invalid response format from Ollama[-]",
            priority := "Low" }
    else
      .ok { title := story.title, url := story.url,
            summary := String.intercalate " " (lines.drop 1),
            priority := lines.headD "" }

/-- The feed message format from the poll loop in src/main.go
(`fmt.Sprintf` with priority, title, url, summary). -/
def insightMessage (ins : HighValueInsight) : String :=
  "[yellow]Priority: " ++ ins.priority ++ "[-]\n[green]" ++ ins.title
    ++ "[-]\n" ++ ins.url ++ "\n" ++ ins.summary

/-- Processing one fetched story inside the poll loop (src/main.go): classify,
substitute the placeholder summary on classifier error (the other fields keep
Go's zero value, the empty string), format the message and insert it. -/
def processStory (entries : List String) (story : Story) (r : CmdResult) :
    List String :=
  let insight :=
    match analyzeWithOllama story r with
    | .ok ins => ins
    | .error _ =>
        { title := "", url := "",
          summary := "[red]Analysis not available[-]", priority := "" }
  addEntry entries (insightMessage insight)

/-- Outcome of one `fetchTopStories` call as seen by the poll loop. -/
inductive FetchResult where
  | ok (stories : List Story)
  | fail (msg : String)
deriving DecidableEq, Repr

/-- One iteration of the poll loop body from `main` in src/main.go, with the
fetch outcome and the per-story classifier outcomes as inputs: a fetch error
inserts a red error entry; otherwise each fetched story is classified and
inserted in order. -/
def pollIteration (entries : List String) (fr : FetchResult)
    (classifier : Story → CmdResult) : List String :=
  match fr with
  | .fail msg => addEntry entries ("[red]Error: " ++ msg ++ "[-]")
  | .ok stories =>
      stories.foldl (fun es story => processStory es story (classifier story)) entries

/-- The story-selection loop of `fetchTopStories` in src/main.go: walk the
fetched ID list; an unseen ID's details are fetched — on success the story is
appended and the ID marked seen, on failure the ID is silently skipped; the
loop breaks once `numStoriesFetch` stories are collected.  `details` gives
the outcome of each per-ID HTTP fetch. -/
def fetchLoop (details : Nat → Except String Story) :
    List Nat → List Nat → List Story → List Story × List Nat
  | [], seen, stories => (stories, seen)
  | id :: rest, seen, stories =>
    let step : List Story × List Nat :=
      if id ∈ seen then (stories, seen)
      else
        match details id with
        | .ok story => (stories ++ [story], seen ++ [id])
        | .error _ => (stories, seen)
    if numStoriesFetch ≤ step.1.length then step
    else fetchLoop details rest step.2 step.1

/-- `fetchTopStories` from src/main.go: the outcome of the top-level
topstories.json fetch (`top`, covering connection, body-read and JSON-decode
errors) is propagated as an error; otherwise the selection loop runs over the
decoded ID list and the call always succeeds, returning the chosen stories
and the updated seen set. -/
def fetchTopStories (seen : List Nat) (top : Except String (List Nat))
    (details : Nat → Except String Story) :
    Except String (List Story × List Nat) :=
  match top with
  | .error e => .error e
  | .ok storyIDs => .ok (fetchLoop details storyIDs seen [])

lemma addEntry_head_tail (entries : List String) (m : String) :
    (addEntry entries m).headD "" = m ∧
    (addEntry entries m).tail = entries.take (maxEntries - 1) := by
  have h20 : (m :: entries).take 20 = m :: entries.take 19 := rfl
  unfold addEntry maxEntries
  simp only [List.length_cons, h20]
  by_cases hc : 20 < entries.length + 1
  · simp [hc]
  · have hlen : entries.length ≤ 19 := by omega
    simp [hc, List.take_of_length_le hlen]

lemma fetchLoop_spec (details : Nat → Except String Story) :
    ∀ (ids seen : List Nat) (acc : List Story), acc.length < numStoriesFetch →
      ∃ δ : List (Nat × Story),
        fetchLoop details ids seen acc =
          (acc ++ δ.map Prod.snd, seen ++ δ.map Prod.fst) ∧
        (δ.map Prod.fst).Nodup ∧
        (∀ p ∈ δ, p.1 ∉ seen ∧ details p.1 = .ok p.2 ∧ p.1 ∈ ids) ∧
        acc.length + δ.length ≤ numStoriesFetch := by
  intro ids
  induction ids with
  | nil =>
      intro seen acc hacc
      exact ⟨[], by simp [fetchLoop], by simp, by simp,
        by simpa using Nat.le_of_lt hacc⟩
  | cons id rest ih =>
      intro seen acc hacc
      by_cases hseen : id ∈ seen
      · obtain ⟨δ, h1, h2, h3, h4⟩ := ih seen acc hacc
        refine ⟨δ, ?_, h2, ?_, h4⟩
        · simp only [fetchLoop, hseen, if_true]
          rw [if_neg (by omega)]
          exact h1
        · intro p hp
          obtain ⟨hp1, hp2, hp3⟩ := h3 p hp
          exact ⟨hp1, hp2, List.mem_cons_of_mem _ hp3⟩
      · cases hdet : details id with
        | error e =>
            obtain ⟨δ, h1, h2, h3, h4⟩ := ih seen acc hacc
            refine ⟨δ, ?_, h2, ?_, h4⟩
            · simp only [fetchLoop, hseen, if_false, hdet]
              rw [if_neg (by omega)]
              exact h1
            · intro p hp
              obtain ⟨hp1, hp2, hp3⟩ := h3 p hp
              exact ⟨hp1, hp2, List.mem_cons_of_mem _ hp3⟩
        | ok story =>
            by_cases hfull : numStoriesFetch ≤ (acc ++ [story]).length
            · refine ⟨[(id, story)], ?_, by simp, ?_, ?_⟩
              · simp only [fetchLoop, hseen, if_false, hdet]
                rw [if_pos (by simpa using hfull)]
                simp
              · intro p hp
                simp only [List.mem_singleton] at hp
                subst hp
                exact ⟨hseen, hdet, List.mem_cons_self _ _⟩
              · simp only [List.length_append, List.length_singleton] at hfull
                simp only [List.length_singleton]
                omega
            · have hacc1 : (acc ++ [story]).length < numStoriesFetch := by omega
              obtain ⟨δ, h1, h2, h3, h4⟩ := ih (seen ++ [id]) (acc ++ [story]) hacc1
              refine ⟨(id, story) :: δ, ?_, ?_, ?_, ?_⟩
              · simp only [fetchLoop, hseen, if_false, hdet]
                rw [if_neg hfull, h1]
                simp
              · simp only [List.map_cons, List.nodup_cons]
                refine ⟨?_, h2⟩
                intro hmem
                obtain ⟨p, hp, hpe⟩ := List.mem_map.mp hmem
                have := (h3 p hp).1
                simp only [List.mem_append, List.mem_singleton] at this
                exact this (Or.inr hpe)
              · intro p hp
                rcases List.mem_cons.mp hp with hp | hp
                · subst hp
                  exact ⟨hseen, hdet, List.mem_cons_self _ _⟩
                · obtain ⟨hp1, hp2, hp3⟩ := h3 p hp
                  have hp1s : p.1 ∉ seen := fun hx =>
                    hp1 (List.mem_append.mpr (Or.inl hx))
                  exact ⟨hp1s, hp2, List.mem_cons_of_mem _ hp3⟩
              · simp only [List.length_cons]
                simp only [List.length_append, List.length_singleton] at h4
                omega

end IntelStreamer

open IntelStreamer

/-- C1: starting from the empty buffer, any sequence of `addEntry` insertions
keeps the Feed Buffer length at most `maxEntries` (20); the buffer always
equals the most recent insertions newest-first (the reversed insertion
sequence truncated to capacity), and after more than `maxEntries` insertions
it holds exactly `maxEntries` entries, the oldest having been evicted. -/
theorem C1_addEntry_bounded_and_recent (msgs : List String) :
    (insertAll msgs []).length ≤ maxEntries ∧
    insertAll msgs [] = msgs.reverse.take maxEntries ∧
    (maxEntries < msgs.length → (insertAll msgs []).length = maxEntries) := by
  have he : insertAll msgs [] = msgs.reverse.take maxEntries := by
    have := insertAll_eq_take msgs [] (by simp [maxEntries])
    simpa using this
  refine ⟨?_, he, ?_⟩
  · rw [he]
    simpa using Nat.min_le_left maxEntries _
  · intro hm
    rw [he]
    simp only [List.length_take, List.length_reverse]
    omega

/-- Witness for C1: a concrete run of 25 insertions keeps exactly the 20
most recent messages, newest-first. -/
theorem C1_witness :
    (insertAll ((List.range 25).map toString) []).length ≤ maxEntries ∧
    insertAll ((List.range 25).map toString) [] =
      ((List.range 25).map toString).reverse.take maxEntries ∧
    (maxEntries < ((List.range 25).map toString).length →
      (insertAll ((List.range 25).map toString) []).length = maxEntries) :=
  C1_addEntry_bounded_and_recent ((List.range 25).map toString)

/-- C2: rendering a buffer of `n ≥ 1` entries succeeds and produces, for the
entry at position `i` (0 = newest), the segment
`fadeLevels[floor(i*(K-1)/n)] ++ entry ++ "[-]"` with `K = 5` fade levels,
all segments joined by blank lines; there are exactly `n` segments, the
newest entry gets the first fade level `"[white]"`, and the bucket index is
non-decreasing in the position. -/
theorem C2_render_fade (entries : List String) (h : entries ≠ []) :
    formatEntriesWithFade entries =
      some (String.intercalate "\n\n" (entries.enum.map
        (fun p => fadeLevels.getD (fadeBucket p.1 entries.length) "" ++ p.2 ++ "[-]"))) ∧
    (entries.enum.map
        (fun p => fadeLevels.getD (fadeBucket p.1 entries.length) "" ++ p.2 ++ "[-]")).length
      = entries.length ∧
    fadeBucket 0 entries.length = 0 ∧
    fadeLevels.getD (fadeBucket 0 entries.length) "" = "[white]" ∧
    (∀ i j : Nat, i ≤ j → fadeBucket i entries.length ≤ fadeBucket j entries.length) := by
  refine ⟨?_, by simp, by simp [fadeBucket], by simp [fadeBucket, fadeLevels], ?_⟩
  · unfold formatEntriesWithFade
    rw [fadeWorker_eq entries.length entries 0 (by omega)]
    rfl
  · intro i j hij
    exact Nat.div_le_div_right (Nat.mul_le_mul_right _ hij)

/-- Witness for C2 at the concrete buffer `["a", "b", "c"]`. -/
theorem C2_witness :
    formatEntriesWithFade ["a", "b", "c"] =
      some (String.intercalate "\n\n" (["a", "b", "c"].enum.map
        (fun p => fadeLevels.getD (fadeBucket p.1 (["a", "b", "c"] : List String).length) ""
          ++ p.2 ++ "[-]"))) ∧
    ((["a", "b", "c"] : List String).enum.map
        (fun p => fadeLevels.getD (fadeBucket p.1 (["a", "b", "c"] : List String).length) ""
          ++ p.2 ++ "[-]")).length = (["a", "b", "c"] : List String).length ∧
    fadeBucket 0 (["a", "b", "c"] : List String).length = 0 ∧
    fadeLevels.getD (fadeBucket 0 (["a", "b", "c"] : List String).length) "" = "[white]" ∧
    (∀ i j : Nat, i ≤ j →
      fadeBucket i (["a", "b", "c"] : List String).length
        ≤ fadeBucket j (["a", "b", "c"] : List String).length) :=
  C2_render_fade ["a", "b", "c"] (by simp)

/-- C5: rendering the empty buffer yields the empty string and no division
fault (`some` in this embedding means no runtime panic occurred: the Go
loop body, which contains the division by `len(entries)`, never runs). -/
theorem C5_render_empty : formatEntriesWithFade [] = some "" := rfl

/-- C9: for every buffer length `n ≥ 1` and position `i < n`, the fade index
`i * (len(fadeLevels) - 1) / n` is at most `len(fadeLevels) - 2 = 3`, so the
lookup into `fadeLevels` is always in bounds and the last fade level
`"[black]"` is never applied to any entry. -/
theorem C9_fade_index_bounds (n i : Nat) (hn : 1 ≤ n) (hi : i < n) :
    fadeBucket i n ≤ fadeLevels.length - 2 ∧
    fadeLevels.get? (fadeBucket i n) ≠ none ∧
    fadeLevels.getD (fadeBucket i n) "" ≠ "[black]" := by
  have hk : fadeBucket i n ≤ 3 := fadeBucket_le_three i n hi
  refine ⟨by simpa [fadeLevels] using hk, ?_, ?_⟩
  · rw [fadeLevels_get?_of_le _ hk]
    simp
  · generalize hg : fadeBucket i n = k at hk
    interval_cases k <;> decide

/-- Witness for C9 at `n = 2`, `i = 1`. -/
theorem C9_witness :
    fadeBucket 1 2 ≤ fadeLevels.length - 2 ∧
    fadeLevels.get? (fadeBucket 1 2) ≠ none ∧
    fadeLevels.getD (fadeBucket 1 2) "" ≠ "[black]" :=
  C9_fade_index_bounds 2 1 (by decide) (by decide)

/-- C3: when the classifier output splits into at least two lines,
`analyzeWithOllama` succeeds with the first line verbatim as the priority
(any string accepted, no enum validation) and the remaining lines joined by
single spaces as the summary, preserving the story's title and url. -/
theorem C3_parse_two_lines (story : Story) (output : String)
    (h : 2 ≤ (splitLines output).length) :
    analyzeWithOllama story (.ok output) =
      .ok { title := story.title, url := story.url,
            summary := String.intercalate " " ((splitLines output).drop 1),
            priority := (splitLines output).headD "" } := by
  simp only [analyzeWithOllama]
  rw [if_neg (by omega)]

/-- Witness for C3 at the output `"High\nLooks urgent"`. -/
theorem C3_witness :
    analyzeWithOllama ⟨"A", "u1"⟩ (.ok "High\nLooks urgent") =
      .ok { title := "A", url := "u1",
            summary :=
              String.intercalate " " ((splitLines "High\nLooks urgent").drop 1),
            priority := (splitLines "High\nLooks urgent").headD "" } :=
  C3_parse_two_lines ⟨"A", "u1"⟩ "High\nLooks urgent" (by decide)

/-- C4: when the classifier output splits into fewer than two lines
(including empty output), `analyzeWithOllama` succeeds and returns a
synthetic insight with priority `"Low"` and the fixed invalid-response
summary, preserving the story's title and url. -/
theorem C4_parse_few_lines (story : Story) (output : String)
    (h : (splitLines output).length < 2) :
    analyzeWithOllama story (.ok output) =
      .ok { title := story.title, url := story.url,
            summary := "[red]Invalid response format from Ollama[-]",
            priority := "Low" } := by
  simp only [analyzeWithOllama]
  rw [if_pos h]

/-- Witness for C4 at the empty output. -/
theorem C4_witness :
    analyzeWithOllama ⟨"A", "u1"⟩ (.ok "") =
      .ok { title := "A", url := "u1",
            summary := "[red]Invalid response format from Ollama[-]",
            priority := "Low" } :=
  C4_parse_few_lines ⟨"A", "u1"⟩ "" (by decide)

/-- C6: when the classifier subprocess fails, `analyzeWithOllama` returns an
error, and the poll loop still inserts an entry whose summary component is
the fixed analysis-not-available placeholder (the other insight fields being
Go's zero-value empty strings) at the front of the Feed Buffer; the
iteration is total, so the loop proceeds. -/
theorem C6_classifier_failure (entries : List String) (story : Story) :
    (∃ e, analyzeWithOllama story .fail = .error e) ∧
    processStory entries story .fail =
      addEntry entries (insightMessage
        { title := "", url := "",
          summary := "[red]Analysis not available[-]", priority := "" }) ∧
    (processStory entries story .fail).headD "" =
      insightMessage
        { title := "", url := "",
          summary := "[red]Analysis not available[-]", priority := "" } :=
  ⟨⟨_, rfl⟩, rfl, (addEntry_head_tail entries _).1⟩

/-- C8: when the top-level story-ID fetch fails, the poll loop iteration
inserts exactly one red error entry at the front of the Feed Buffer, and the
rest of the buffer is the previous contents unchanged except for capacity
truncation. -/
theorem C8_fetch_error_entry (entries : List String) (msg : String)
    (classifier : Story → CmdResult) :
    pollIteration entries (.fail msg) classifier =
      addEntry entries ("[red]Error: " ++ msg ++ "[-]") ∧
    (pollIteration entries (.fail msg) classifier).headD "" =
      "[red]Error: " ++ msg ++ "[-]" ∧
    (pollIteration entries (.fail msg) classifier).tail =
      entries.take (maxEntries - 1) :=
  ⟨rfl, (addEntry_head_tail entries _).1, (addEntry_head_tail entries _).2⟩

/-- C7: when the detail fetch for one story ID fails, that ID is silently
skipped by the selection loop — the loop continues on the remaining IDs with
the stories and the seen set unchanged — and `fetchTopStories` still
succeeds (no error is propagated) whenever the top-level ID list was
obtained. -/
theorem C7_failed_story_skipped (details : Nat → Except String Story)
    (id : Nat) (rest seen : List Nat) (acc : List Story) (e : String)
    (hfail : details id = .error e) (hacc : acc.length < numStoriesFetch) :
    fetchLoop details (id :: rest) seen acc = fetchLoop details rest seen acc ∧
    ∀ (s ids : List Nat), ∃ res, fetchTopStories s (.ok ids) details = .ok res := by
  refine ⟨?_, fun s ids => ⟨_, rfl⟩⟩
  by_cases hseen : id ∈ seen
  · simp only [fetchLoop, hseen, if_true]
    rw [if_neg (by omega)]
  · simp only [fetchLoop, hseen, if_false, hfail]
    rw [if_neg (by omega)]

/-- Witness for C7: ID 101's fetch fails, the loop skips it and proceeds to
ID 102 with nothing recorded. -/
theorem C7_witness :
    (fetchLoop (fun _ => Except.error "network error") [101, 102] [] [] =
      fetchLoop (fun _ => Except.error "network error") [102] [] []) ∧
    ∀ (s ids : List Nat),
      ∃ res, fetchTopStories s (.ok ids) (fun _ => Except.error "network error") =
        .ok res :=
  C7_failed_story_skipped (fun _ => Except.error "network error")
    101 [102] [] [] "network error" rfl (by decide)

/-- C10: for every call to the selection loop starting from an empty batch,
there is a list `δ` of (ID, story) pairs such that the returned stories are
exactly `δ`'s stories in order, the seen set grows by exactly `δ`'s IDs,
those IDs are pairwise distinct, were not seen before the call, had
successful detail fetches (a failing ID is never added, so it stays
eligible), came from the fetched ID list, and at most `numStoriesFetch`
stories are returned. -/
theorem C10_seen_set_dedup (details : Nat → Except String Story)
    (ids seen : List Nat) :
    ∃ δ : List (Nat × Story),
      fetchTopStories seen (.ok ids) details =
        .ok (δ.map Prod.snd, seen ++ δ.map Prod.fst) ∧
      (δ.map Prod.fst).Nodup ∧
      (∀ p ∈ δ, p.1 ∉ seen ∧ details p.1 = .ok p.2 ∧ p.1 ∈ ids) ∧
      (δ.map Prod.snd).length ≤ numStoriesFetch := by
  obtain ⟨δ, h1, h2, h3, h4⟩ := fetchLoop_spec details ids seen [] (by decide)
  refine ⟨δ, ?_, h2, h3, ?_⟩
  · show Except.ok (fetchLoop details ids seen []) = _
    rw [h1]
    simp
  · simp only [List.length_map]
    omega
